import Mathlib

/-!
A shallow embedding of `src/myshell.cpp`: the tokenizer (`split`), the
argument-vector builder (`get_args`), the single-command executor
(`execute_command`), the pipeline executor (`execute_pipeline`) and the
per-line behaviour of `main`.  System calls (pipe, fork, dup2, execvp,
close, wait) are modelled by events recorded in per-process traces;
oracles tell whether each fallible call succeeds.
-/

namespace MyShell

/-- The whitespace trimmed by the tokenizer: space and horizontal tab
(the source trims with find_first_not_of over a two-character set). -/
def isWs (c : Char) : Bool := c == ' ' || c == '\t'

/-- Chunks produced by the getline-with-delimiter loop inside `split`: the
input is cut at every occurrence of the delimiter; a trailing delimiter
yields no trailing empty chunk (getline fails at end of stream before
reading anything), and an empty input yields no chunk at all. -/
def getlineChunks (d : Char) : List Char → List (List Char)
  | [] => []
  | c :: cs =>
    if c = d then [] :: getlineChunks d cs
    else
      match getlineChunks d cs with
      | [] => [[c]]
      | t :: ts => (c :: t) :: ts

/-- Trimming step of `split`: drop leading and trailing space/tab; a chunk
that is all whitespace is dropped entirely (the source continues the loop
when find_first_not_of returns npos). -/
def trimTok (t : List Char) : Option (List Char) :=
  let t1 := t.dropWhile isWs
  if t1 = [] then none
  else some ((t1.reverse.dropWhile isWs).reverse)

/-- `split` from the source: cut on the delimiter, trim every chunk, drop
chunks that are empty after trimming. -/
def split (s : List Char) (d : Char) : List (List Char) :=
  (getlineChunks d s).filterMap trimTok

/-- `split` lifted to `String`, the type the source operates on. -/
def splitS (s : String) (d : Char) : List String :=
  (split s.toList d).map (fun cs => String.mk cs)

/-- Joining a token list back into one string with the delimiter as
separator (the `tokenize_to_string` operation of the spec). -/
def joinTokens (d : Char) : List (List Char) → List Char
  | [] => []
  | [t] => t
  | t :: t2 :: rest => t ++ d :: joinTokens d (t2 :: rest)

/-- `joinTokens` lifted to `String`. -/
def joinTokensS (d : Char) (toks : List String) : String :=
  String.mk (joinTokens d (toks.map String.toList))

/-- MAX_ARGS from the source. -/
def MAX_ARGS : Nat := 64

/-- The values `get_args` stores into the C array `args`: position `i`
of this list is the value written into `args[i]` (a borrowed pointer for
`i < parts.size()`, the null sentinel at `i = parts.size()`).  The source
performs these writes with no bound check whatsoever. -/
def get_args (parts : List String) : List (Option String) :=
  parts.map (fun s => some s) ++ [none]

/-- The indices of the C array `args` written by `get_args`; the array
only has room for indices below MAX_ARGS. -/
def get_args_writes (parts : List String) : List Nat :=
  List.range (parts.length + 1)

/-- One observable step of a process of the shell.  `closedFd j` closes
`pipefds[j]`; `dup2 j t` duplicates `pipefds[j]` onto descriptor `t`;
`perror m` is a diagnostic report; `exitCall c` is a call of exit with
status `c`; `waited` is wait(NULL) and `waitedPid` is waitpid(pid,..). -/
inductive Event where
  | pipeCreated (i : Nat)
  | forked (i : Nat)
  | closedFd (j : Nat)
  | dup2 (j : Nat) (target : Nat)
  | execvp (argv : List String)
  | perror (msg : String)
  | exitCall (code : Nat)
  | waited
  | waitedPid
deriving DecidableEq, Repr

/-- Result of one run of `execute_command`: whether the interpreter
process itself exited (the quit shortcut), the parent's trace, and the
trace of the spawned child when one exists. -/
structure CommandRun where
  quitExit : Bool
  parent : List Event
  child : Option (List Event)
deriving DecidableEq, Repr

/-- The child branch of `execute_command`: build argv, call execvp; on
exec failure report and exit(EXIT_FAILURE). -/
def execute_command_child (cmd_tokens : List String) (execOk : Bool) : List Event :=
  Event.execvp cmd_tokens ::
    (if execOk then [] else [Event.perror "Execvp failed", Event.exitCall 1])

/-- `execute_command` from the source: empty token list returns at once;
a first token "quit" exits the interpreter with status 0; otherwise fork
(on failure report and return), the child execs, the parent waitpids. -/
def execute_command (cmd_tokens : List String) (forkOk execOk : Bool) : CommandRun :=
  match cmd_tokens with
  | [] => ⟨false, [], none⟩
  | t :: _ =>
    if t = "quit" then ⟨true, [Event.exitCall 0], none⟩
    else if forkOk then
      ⟨false, [Event.forked 0, Event.waitedPid],
        some (execute_command_child cmd_tokens execOk)⟩
    else ⟨false, [Event.perror "Fork failed"], none⟩

/-- The child branch of `execute_pipeline` for stage `i` of `n`: dup2 the
read end of channel `i-1` onto stdin when `i > 0` (on failure report and
exit(1)), dup2 the write end of channel `i` onto stdout when `i < n-1`
(same failure handling), close all `2*(n-1)` inherited endpoints, then
tokenize the stage and execvp it (on failure report and exit(1)). -/
def childBody (i n : Nat) (cmd : String) (dIn dOut eOk : Bool) : List Event :=
  if 0 < i ∧ dIn = false then
    [Event.dup2 ((i-1)*2) 0, Event.perror "dup2 stdin failed", Event.exitCall 1]
  else
    (if 0 < i then [Event.dup2 ((i-1)*2) 0] else []) ++
      (if i < n-1 ∧ dOut = false then
        [Event.dup2 (i*2+1) 1, Event.perror "dup2 stdout failed", Event.exitCall 1]
      else
        (if i < n-1 then [Event.dup2 (i*2+1) 1] else []) ++
          (List.range (2*(n-1))).map Event.closedFd ++
          Event.execvp (splitS cmd ' ') ::
            (if eOk then [] else [Event.perror "Execvp failed", Event.exitCall 1]))

/-- The pipe-creation loop of `execute_pipeline`: `k` remaining
iterations starting at index `i`; on the first failing pipe call report
"Pipe failed" and abort (second component false). -/
def createPipesAux (pipeOk : Nat → Bool) : Nat → Nat → List Event × Bool
  | _, 0 => ([], true)
  | i, k+1 =>
    if pipeOk i then
      let r := createPipesAux pipeOk (i+1) k
      (Event.pipeCreated i :: r.1, r.2)
    else ([Event.perror "Pipe failed"], false)

/-- The fork loop of `execute_pipeline`: `k` remaining stages starting at
stage `i`; on each successful fork the child's whole trace is recorded;
on the first failing fork report "Fork failed" and abort, keeping the
children already spawned. -/
def spawnAux (cmds : List String) (n : Nat) (forkOk dIn dOut eOk : Nat → Bool) :
    Nat → Nat → List Event × List (Nat × List Event) × Bool
  | _, 0 => ([], [], true)
  | i, k+1 =>
    if forkOk i then
      let r := spawnAux cmds n forkOk dIn dOut eOk (i+1) k
      (Event.forked i :: r.1,
        (i, childBody i n (cmds.getD i "") (dIn i) (dOut i) (eOk i)) :: r.2.1,
        r.2.2)
    else ([Event.perror "Fork failed"], [], false)

/-- Result of one run of `execute_pipeline`: the parent's trace and the
traces of every spawned child, tagged with its stage index. -/
structure PipelineRun where
  parent : List Event
  children : List (Nat × List Event)
deriving DecidableEq, Repr

/-- `execute_pipeline` from the source: create the `n-1` pipes (on
failure return at once), fork the `n` stages (on failure return at once,
without cleanup), then close all `2*(n-1)` parent endpoints and wait
once per stage. -/
def execute_pipeline (cmds : List String) (pipeOk forkOk dIn dOut eOk : Nat → Bool) :
    PipelineRun :=
  let n := cmds.length
  let p := createPipesAux pipeOk 0 (n-1)
  if p.2 then
    let s := spawnAux cmds n forkOk dIn dOut eOk 0 n
    if s.2.2 then
      ⟨p.1 ++ s.1 ++ (List.range (2*(n-1))).map Event.closedFd ++
        List.replicate n Event.waited, s.2.1⟩
    else ⟨p.1 ++ s.1, s.2.1⟩
  else ⟨p.1, []⟩

/-- What one iteration of the main loop does with the interpreter
process: continue to the next prompt, or terminate with the given
status. -/
inductive LineOutcome where
  | next
  | terminate (code : Nat)
deriving DecidableEq, Repr

/-- One iteration of the main loop on one input line, together with the
parent-side trace of that line: empty lines and lines with no stages are
skipped, the literal line "quit" breaks the loop (the process then
returns 0), one stage goes to `execute_command` (which may exit the
process via the quit shortcut), several stages go to
`execute_pipeline`. -/
def processLine (input : String) (forkOk execOk : Bool)
    (po fo di do2 eo : Nat → Bool) : LineOutcome × List Event :=
  if input = "" then (LineOutcome.next, [])
  else if input = "quit" then (LineOutcome.terminate 0, [])
  else
    let commands := splitS input '|'
    if commands.length = 0 then (LineOutcome.next, [])
    else if commands.length = 1 then
      let r := execute_command (splitS (commands.headD "") ' ') forkOk execOk
      (if r.quitExit then LineOutcome.terminate 0 else LineOutcome.next, r.parent)
    else
      (LineOutcome.next, (execute_pipeline commands po fo di do2 eo).parent)

/-- The environment of one main-loop iteration: the line read and the
outcomes of the fallible system calls made while handling it. -/
structure LineEnv where
  input : String
  forkOk : Bool
  execOk : Bool
  po : Nat → Bool
  fo : Nat → Bool
  di : Nat → Bool
  do2 : Nat → Bool
  eo : Nat → Bool

/-- `processLine` on a `LineEnv`. -/
def runLine (e : LineEnv) : LineOutcome × List Event :=
  processLine e.input e.forkOk e.execOk e.po e.fo e.di e.do2 e.eo

/-- The main loop over the whole input source: process lines until one
terminates the process or the input is exhausted (then return 0). -/
def mainRun : List LineEnv → Nat
  | [] => 0
  | e :: rest =>
    match (runLine e).1 with
    | LineOutcome.terminate c => c
    | LineOutcome.next => mainRun rest

/-- The line parses to a single-stage command whose first token is
"quit". -/
def parsedSingleQuit (input : String) : Prop :=
  (splitS input '|').length = 1 ∧
    (splitS ((splitS input '|').headD "") ' ').head? = some "quit"

instance (input : String) : Decidable (parsedSingleQuit input) := by
  unfold parsedSingleQuit; infer_instance

/-- Wait events of either flavour (wait(NULL) or waitpid). -/
def isWaitEvent : Event → Bool
  | Event.waited => true
  | Event.waitedPid => true
  | _ => false

/-- Number of blocking waits performed in a trace. -/
def countWaits (l : List Event) : Nat := l.countP isWaitEvent

/-- Observable behaviour of one executor invocation, used to compare the
single-command executor with a length-1 pipeline: whether the
interpreter process exited, whether a fork failure was reported, how
many times the parent waited, and the trace of the spawned child if
one exists. -/
structure Behavior where
  interpExit : Bool
  forkFailReported : Bool
  waits : Nat
  childTrace : Option (List Event)
deriving DecidableEq, Repr

/-- The behaviour of execute_command on a token list. -/
def commandBehavior (tokens : List String) (forkOk execOk : Bool) : Behavior :=
  let r := execute_command tokens forkOk execOk
  ⟨r.parent.contains (Event.exitCall 0),
    r.parent.contains (Event.perror "Fork failed"),
    countWaits r.parent, r.child⟩

/-- The behaviour of execute_pipeline on the length-1 pipeline holding
the single stage c (no channels exist, so the redirection oracles are
irrelevant and fixed to success). -/
def pipeline1Behavior (c : String) (forkOk execOk : Bool) : Behavior :=
  let r := execute_pipeline [c] (fun _ => true) (fun _ => forkOk) (fun _ => true)
    (fun _ => true) (fun _ => execOk)
  ⟨r.parent.contains (Event.exitCall 0),
    r.parent.contains (Event.perror "Fork failed"),
    countWaits r.parent,
    match r.children with
    | [(_, es)] => some es
    | _ => none⟩

/-! Tokenizer lemmas. -/

theorem dropWhile_head_false {p : Char → Bool} :
    ∀ {l c : List Char} {a : Char}, l.dropWhile p = a :: c → p a = false := by
  intro l
  induction l with
  | nil => intro c a h; simp [List.dropWhile] at h
  | cons x xs ih =>
    intro c a h
    by_cases hx : p x
    · rw [List.dropWhile_cons_of_pos hx] at h; exact ih h
    · rw [List.dropWhile_cons_of_neg hx] at h
      cases h; simpa using hx

theorem dropWhile_eq_self_of_head {p : Char → Bool} {l : List Char} {a : Char}
    (hh : l.head? = some a) (ha : p a = false) : l.dropWhile p = l := by
  cases l with
  | nil => exact absurd hh (by simp)
  | cons x xs =>
    have hx : x = a := by simpa using hh
    subst hx
    exact List.dropWhile_cons_of_neg (by simp [ha])

theorem getlineChunks_no_delim {d : Char} :
    ∀ {t : List Char}, d ∉ t → t ≠ [] → getlineChunks d t = [t] := by
  intro t
  induction t with
  | nil => intro _ h; exact absurd rfl h
  | cons c cs ih =>
    intro hd _
    have hcd : ¬ c = d := fun h => hd (by simp [h])
    by_cases hcs : cs = []
    · subst hcs; simp [getlineChunks, hcd]
    · have : getlineChunks d cs = [cs] := ih (fun h => hd (List.mem_cons_of_mem _ h)) hcs
      simp [getlineChunks, hcd, this]

theorem getlineChunks_append_delim {d : Char} :
    ∀ {t : List Char} (r : List Char), d ∉ t →
      getlineChunks d (t ++ d :: r) = t :: getlineChunks d r := by
  intro t
  induction t with
  | nil => intro r _; simp [getlineChunks]
  | cons c cs ih =>
    intro r hd
    have hcd : ¬ c = d := fun h => hd (by simp [h])
    have hrec := ih r (fun h => hd (List.mem_cons_of_mem _ h))
    simp only [List.cons_append, getlineChunks, if_neg hcd, List.append_eq, hrec]

theorem mem_getlineChunks_no_delim {d : Char} :
    ∀ {s c : List Char}, c ∈ getlineChunks d s → d ∉ c := by
  intro s
  induction s with
  | nil => intro c h; simp [getlineChunks] at h
  | cons a as ih =>
    intro c h
    by_cases had : a = d
    · rw [show getlineChunks d (a :: as) = [] :: getlineChunks d as by
          simp [getlineChunks, had]] at h
      rcases List.mem_cons.mp h with h | h
      · subst h; simp
      · exact ih h
    · rw [show getlineChunks d (a :: as)
            = match getlineChunks d as with
              | [] => [[a]]
              | t :: ts => (a :: t) :: ts by simp [getlineChunks, had]] at h
      cases hgc : getlineChunks d as with
      | nil =>
        rw [hgc] at h
        simp at h
        subst h
        simp only [List.mem_singleton]
        exact fun h => had h.symm
      | cons t ts =>
        rw [hgc] at h
        rcases List.mem_cons.mp h with h | h
        · subst h
          intro hmem
          rcases List.mem_cons.mp hmem with h | h
          · exact had h.symm
          · exact ih (hgc ▸ List.mem_cons_self t ts) h
        · exact ih (hgc ▸ List.mem_cons_of_mem t h)

theorem dropWhile_suffix_char (p : Char → Bool) :
    ∀ (l : List Char), l.dropWhile p <:+ l := by
  intro l
  induction l with
  | nil => simp
  | cons a as ih =>
    by_cases ha : p a
    · rw [List.dropWhile_cons_of_pos ha]
      exact ih.trans (List.suffix_cons a as)
    · rw [List.dropWhile_cons_of_neg ha]

theorem trimTok_eq_some {t u : List Char} (h : trimTok t = some u) :
    u ≠ [] ∧ (∀ c, u.head? = some c → isWs c = false) ∧
      (∀ c, u.getLast? = some c → isWs c = false) ∧ (∀ x, x ∈ u → x ∈ t) := by
  unfold trimTok at h
  cases hdw : t.dropWhile isWs with
  | nil => rw [hdw] at h; simp at h
  | cons c cs =>
    rw [hdw] at h
    simp only [List.cons_ne_nil, if_neg, ite_false, Option.some.injEq,
      reduceCtorEq, if_false] at h
    subst h
    have hc : isWs c = false := dropWhile_head_false hdw
    have hDne : (c :: cs).reverse.dropWhile isWs ≠ [] := by
      intro hnil
      have := List.dropWhile_eq_nil_iff.mp hnil c (by simp)
      rw [hc] at this; exact Bool.noConfusion this
    have hsuf : (c :: cs).reverse.dropWhile isWs <:+ (c :: cs).reverse :=
      dropWhile_suffix_char isWs ((c :: cs).reverse)
    have hgl : ((c :: cs).reverse.dropWhile isWs).getLast? = some c := by
      obtain ⟨pre, hpre⟩ := hsuf
      have hap := List.getLast?_append_of_ne_nil pre hDne
      rw [hpre] at hap
      rw [← hap, List.getLast?_reverse]
      simp
    refine ⟨fun hu => hDne (by simpa using hu), ?_, ?_, ?_⟩
    · intro a ha
      rw [List.head?_reverse, hgl] at ha
      cases ha
      exact hc
    · intro a ha
      rw [List.getLast?_reverse] at ha
      cases hDD : (c :: cs).reverse.dropWhile isWs with
      | nil => exact absurd hDD hDne
      | cons b bs =>
        rw [hDD] at ha
        simp at ha
        subst ha
        exact dropWhile_head_false hDD
    · intro x hx
      rw [List.mem_reverse] at hx
      have hx2 : x ∈ (c :: cs).reverse := hsuf.subset hx
      rw [List.mem_reverse] at hx2
      have hx3 : x ∈ t.dropWhile isWs := by rw [hdw]; exact hx2
      exact (dropWhile_suffix_char isWs t).subset hx3

theorem trimTok_self {u : List Char} (hne : u ≠ [])
    (hh : ∀ c, u.head? = some c → isWs c = false)
    (hl : ∀ c, u.getLast? = some c → isWs c = false) : trimTok u = some u := by
  cases u with
  | nil => exact absurd rfl hne
  | cons c cs =>
    have hc : isWs c = false := hh c (by simp)
    have h1 : (c :: cs).dropWhile isWs = c :: cs :=
      List.dropWhile_cons_of_neg (by simp [hc])
    have hlast : ∃ a, (c :: cs).getLast? = some a := by
      cases hgl : (c :: cs).getLast? with
      | none => simp at hgl
      | some a => exact ⟨a, rfl⟩
    obtain ⟨a, ha⟩ := hlast
    have hha : (c :: cs).reverse.head? = some a := by
      rw [List.head?_reverse]; exact ha
    have hrev : (c :: cs).reverse.dropWhile isWs = (c :: cs).reverse :=
      dropWhile_eq_self_of_head hha (hl a ha)
    unfold trimTok
    simp only [h1, List.cons_ne_nil, if_neg, ite_false, reduceCtorEq, if_false]
    rw [hrev, List.reverse_reverse]

theorem mem_split_props {s : List Char} {d : Char} {t : List Char} (h : t ∈ split s d) :
    t ≠ [] ∧ d ∉ t ∧ trimTok t = some t ∧
      (∀ c, t.head? = some c → isWs c = false) ∧
      (∀ c, t.getLast? = some c → isWs c = false) := by
  unfold split at h
  obtain ⟨chunk, hchunk, htrim⟩ := List.mem_filterMap.mp h
  obtain ⟨hne, hhead, hlast, hsub⟩ := trimTok_eq_some htrim
  have hdchunk : d ∉ chunk := mem_getlineChunks_no_delim hchunk
  have hdt : d ∉ t := fun hx => hdchunk (hsub d hx)
  exact ⟨hne, hdt, trimTok_self hne hhead hlast, hhead, hlast⟩

theorem split_joinTokens {d : Char} :
    ∀ {L : List (List Char)},
      (∀ t ∈ L, t ≠ [] ∧ d ∉ t ∧ trimTok t = some t) →
      split (joinTokens d L) d = L := by
  intro L
  induction L with
  | nil => intro _; simp [joinTokens, split, getlineChunks]
  | cons t rest ih =>
    intro hL
    obtain ⟨hne, hnd, htr⟩ := hL t (by simp)
    cases rest with
    | nil =>
      simp only [joinTokens]
      unfold split
      rw [getlineChunks_no_delim hnd hne]
      simp [htr]
    | cons t2 rest2 =>
      have hrec := ih (fun x hx => hL x (List.mem_cons_of_mem _ hx))
      simp only [joinTokens]
      unfold split
      rw [getlineChunks_append_delim _ hnd]
      simp only [List.filterMap_cons, htr]
      unfold split at hrec
      rw [hrec]

theorem split_join_split (s : List Char) (d : Char) :
    split (joinTokens d (split s d)) d = split s d := by
  apply split_joinTokens
  intro t ht
  obtain ⟨hne, hnd, htr, _, _⟩ := mem_split_props ht
  exact ⟨hne, hnd, htr⟩

theorem map_toList_map_mk (L : List (List Char)) :
    (L.map (fun cs => String.mk cs)).map String.toList = L := by
  induction L with
  | nil => rfl
  | cons a L ih =>
    simp only [List.map_cons]
    rw [ih]
    rfl

/-- Claim C6: the tokenizer trims every substring of leading/trailing
space and tab and drops substrings empty after trimming, so every
returned token is non-empty, starts and ends with a non-whitespace
character, and contains no occurrence of the delimiter; in particular
tokenizing "  a   |   | b  " on the pipe character yields exactly
["a", "b"]. -/
theorem split_trims_and_drops_empty :
    splitS "  a   |   | b  " '|' = ["a", "b"] ∧
    ∀ (s : String) (d : Char) (t : String), t ∈ splitS s d →
      t ≠ "" ∧ (∀ c, t.toList.head? = some c → isWs c = false) ∧
        (∀ c, t.toList.getLast? = some c → isWs c = false) ∧ d ∉ t.toList := by
  constructor
  · decide
  · intro s d t ht
    unfold splitS at ht
    obtain ⟨u, hu, hmk⟩ := List.mem_map.mp ht
    obtain ⟨hne, hnd, _, hhead, hlast⟩ := mem_split_props hu
    subst hmk
    exact ⟨fun h => hne (by simpa using congrArg String.toList h),
      fun c hc => hhead c hc, fun c hc => hlast c hc, hnd⟩

/-- Witness for claim C6 at a concrete input. -/
theorem split_trims_witness :
    ("a" : String) ∈ splitS "  a   |   | b  " '|' ∧ ("a" : String) ≠ "" :=
  ⟨by decide,
    (split_trims_and_drops_empty.2 "  a   |   | b  " '|' "a" (by decide)).1⟩

/-! Closed forms and shape lemmas for the pipe-creation and fork loops. -/

theorem createPipesAux_all_ok (pipeOk : Nat → Bool) :
    ∀ (k i : Nat), (∀ j, i ≤ j → j < i + k → pipeOk j = true) →
      createPipesAux pipeOk i k = ((List.range' i k).map Event.pipeCreated, true) := by
  intro k
  induction k with
  | zero => intro i _; rfl
  | succ k ih =>
    intro i h
    have hi : pipeOk i = true := h i le_rfl (by omega)
    have hrec := ih (i+1) (fun j hj1 hj2 => h j (by omega) (by omega))
    simp only [createPipesAux, hi, if_true, hrec, List.range'_succ, List.map_cons]

theorem createPipesAux_first_fail (pipeOk : Nat → Bool) :
    ∀ (k i f : Nat), i ≤ f → f < i + k → (∀ j, i ≤ j → j < f → pipeOk j = true) →
      pipeOk f = false →
      createPipesAux pipeOk i k =
        ((List.range' i (f - i)).map Event.pipeCreated ++
          [Event.perror "Pipe failed"], false) := by
  intro k
  induction k with
  | zero => intro i f h1 h2 _ _; omega
  | succ k ih =>
    intro i f h1 h2 hok hf
    by_cases hif : i = f
    · subst hif
      simp [createPipesAux, hf, Nat.sub_self]
    · have hlt : i < f := lt_of_le_of_ne h1 hif
      have hi : pipeOk i = true := hok i le_rfl hlt
      have hrec := ih (i+1) f (by omega) (by omega)
        (fun j hj1 hj2 => hok j (by omega) hj2) hf
      simp only [createPipesAux, hi, if_true, hrec]
      rw [show f - i = (f - (i+1)) + 1 by omega, List.range'_succ]
      simp

theorem createPipesAux_events_shape {pipeOk : Nat → Bool} :
    ∀ (k i : Nat) (e : Event), e ∈ (createPipesAux pipeOk i k).1 →
      (∃ m, e = Event.pipeCreated m) ∨ e = Event.perror "Pipe failed" := by
  intro k
  induction k with
  | zero => intro i e h; simp [createPipesAux] at h
  | succ k ih =>
    intro i e h
    by_cases hi : pipeOk i
    · simp only [createPipesAux, hi, if_true] at h
      rcases List.mem_cons.mp h with h | h
      · exact Or.inl ⟨i, h⟩
      · exact ih (i+1) e h
    · simp only [createPipesAux, hi, if_false, Bool.false_eq_true] at h
      simp at h
      exact Or.inr h

theorem createPipesAux_fail_of_exists {pipeOk : Nat → Bool} :
    ∀ (k i : Nat), (∃ j, i ≤ j ∧ j < i + k ∧ pipeOk j = false) →
      (createPipesAux pipeOk i k).2 = false ∧
        Event.perror "Pipe failed" ∈ (createPipesAux pipeOk i k).1 := by
  intro k
  induction k with
  | zero => intro i ⟨j, h1, h2, _⟩; omega
  | succ k ih =>
    intro i ⟨j, h1, h2, hj⟩
    by_cases hi : pipeOk i
    · have hji : j ≠ i := fun h => by rw [h, hi] at hj; exact Bool.noConfusion hj
      have hrec := ih (i+1) ⟨j, by omega, by omega, hj⟩
      simp only [createPipesAux, hi, if_true]
      exact ⟨hrec.1, List.mem_cons_of_mem _ hrec.2⟩
    · simp [createPipesAux, hi]

theorem spawnAux_all_ok (cmds : List String) (n : Nat) (forkOk dIn dOut eOk : Nat → Bool) :
    ∀ (k i : Nat), (∀ j, i ≤ j → j < i + k → forkOk j = true) →
      spawnAux cmds n forkOk dIn dOut eOk i k =
        ((List.range' i k).map Event.forked,
          (List.range' i k).map
            (fun j => (j, childBody j n (cmds.getD j "") (dIn j) (dOut j) (eOk j))),
          true) := by
  intro k
  induction k with
  | zero => intro i _; rfl
  | succ k ih =>
    intro i h
    have hi : forkOk i = true := h i le_rfl (by omega)
    have hrec := ih (i+1) (fun j hj1 hj2 => h j (by omega) (by omega))
    simp only [spawnAux, hi, if_true, hrec, List.range'_succ, List.map_cons]

theorem spawnAux_first_fail (cmds : List String) (n : Nat) (forkOk dIn dOut eOk : Nat → Bool) :
    ∀ (k i f : Nat), i ≤ f → f < i + k → (∀ j, i ≤ j → j < f → forkOk j = true) →
      forkOk f = false →
      spawnAux cmds n forkOk dIn dOut eOk i k =
        ((List.range' i (f - i)).map Event.forked ++ [Event.perror "Fork failed"],
          (List.range' i (f - i)).map
            (fun j => (j, childBody j n (cmds.getD j "") (dIn j) (dOut j) (eOk j))),
          false) := by
  intro k
  induction k with
  | zero => intro i f h1 h2 _ _; omega
  | succ k ih =>
    intro i f h1 h2 hok hf
    by_cases hif : i = f
    · subst hif
      simp [spawnAux, hf, Nat.sub_self]
    · have hlt : i < f := lt_of_le_of_ne h1 hif
      have hi : forkOk i = true := hok i le_rfl hlt
      have hrec := ih (i+1) f (by omega) (by omega)
        (fun j hj1 hj2 => hok j (by omega) hj2) hf
      simp only [spawnAux, hi, if_true, hrec]
      rw [show f - i = (f - (i+1)) + 1 by omega, List.range'_succ]
      simp

theorem spawnAux_events_shape {cmds : List String} {n : Nat} {forkOk dIn dOut eOk : Nat → Bool} :
    ∀ (k i : Nat) (e : Event), e ∈ (spawnAux cmds n forkOk dIn dOut eOk i k).1 →
      (∃ m, e = Event.forked m) ∨ e = Event.perror "Fork failed" := by
  intro k
  induction k with
  | zero => intro i e h; simp [spawnAux] at h
  | succ k ih =>
    intro i e h
    by_cases hi : forkOk i
    · simp only [spawnAux, hi, if_true] at h
      rcases List.mem_cons.mp h with h | h
      · exact Or.inl ⟨i, h⟩
      · exact ih (i+1) e h
    · simp only [spawnAux, hi, if_false, Bool.false_eq_true] at h
      simp at h
      exact Or.inr h

theorem spawnAux_child_mem (cmds : List String) (n : Nat) (forkOk dIn dOut eOk : Nat → Bool) :
    ∀ (k i0 i : Nat), i0 ≤ i → i < i0 + k → (∀ j, i0 ≤ j → j ≤ i → forkOk j = true) →
      (i, childBody i n (cmds.getD i "") (dIn i) (dOut i) (eOk i)) ∈
        (spawnAux cmds n forkOk dIn dOut eOk i0 k).2.1 := by
  intro k
  induction k with
  | zero => intro i0 i h1 h2 _; omega
  | succ k ih =>
    intro i0 i h1 h2 hok
    have hi0 : forkOk i0 = true := hok i0 le_rfl h1
    simp only [spawnAux, hi0, if_true]
    by_cases hii : i0 = i
    · subst hii; exact List.mem_cons_self _ _
    · exact List.mem_cons_of_mem _
        (ih (i0+1) i (by omega) (by omega) (fun j hj1 hj2 => hok j (by omega) hj2))

theorem count_closedFd_map_range (j m : Nat) :
    ((List.range m).map Event.closedFd).count (Event.closedFd j) =
      if j < m then 1 else 0 := by
  induction m with
  | zero => simp
  | succ m ih =>
    rw [List.range_succ, List.map_append, List.count_append, ih]
    simp only [List.map_cons, List.map_nil]
    by_cases hjm : j = m
    · subst hjm
      simp [List.count_cons]
    · have hne : (Event.closedFd m == Event.closedFd j) = false := by
        simp only [beq_eq_false_iff_ne, ne_eq, Event.closedFd.injEq]
        exact fun h => hjm h.symm
      rw [List.count_cons]
      simp only [List.count_nil, hne]
      by_cases hlt : j < m
      · simp [hlt, Nat.lt_succ_of_lt hlt]
      · have : ¬ j < m + 1 := by omega
        simp [hlt, this]

theorem execute_pipeline_all_ok (cmds : List String) (pipeOk forkOk dIn dOut eOk : Nat → Bool)
    (hp : ∀ j, j < cmds.length - 1 → pipeOk j = true)
    (hf : ∀ j, j < cmds.length → forkOk j = true) :
    execute_pipeline cmds pipeOk forkOk dIn dOut eOk =
      ⟨(List.range' 0 (cmds.length - 1)).map Event.pipeCreated ++
        (List.range' 0 cmds.length).map Event.forked ++
        (List.range (2*(cmds.length - 1))).map Event.closedFd ++
        List.replicate cmds.length Event.waited,
       (List.range' 0 cmds.length).map
         (fun j => (j, childBody j cmds.length (cmds.getD j "")
            (dIn j) (dOut j) (eOk j)))⟩ := by
  have hP := createPipesAux_all_ok pipeOk (cmds.length - 1) 0
    (fun j _ hj2 => hp j (by omega))
  have hS := spawnAux_all_ok cmds cmds.length forkOk dIn dOut eOk cmds.length 0
    (fun j _ hj2 => hf j (by omega))
  simp only [execute_pipeline, hP, hS, if_true]

theorem execute_pipeline_pipe_fail (cmds : List String)
    (pipeOk forkOk dIn dOut eOk : Nat → Bool) (k : Nat)
    (hk : k < cmds.length - 1) (hok : ∀ j, j < k → pipeOk j = true)
    (hfail : pipeOk k = false) :
    execute_pipeline cmds pipeOk forkOk dIn dOut eOk =
      ⟨(List.range' 0 k).map Event.pipeCreated ++ [Event.perror "Pipe failed"], []⟩ := by
  have hP := createPipesAux_first_fail pipeOk (cmds.length - 1) 0 k
    (Nat.zero_le k) (by omega) (fun j _ hj2 => hok j hj2) hfail
  simp only [execute_pipeline, hP]
  simp

theorem execute_pipeline_fork_fail (cmds : List String)
    (pipeOk forkOk dIn dOut eOk : Nat → Bool) (f : Nat)
    (hp : ∀ j, j < cmds.length - 1 → pipeOk j = true)
    (hf : f < cmds.length) (hok : ∀ j, j < f → forkOk j = true)
    (hfail : forkOk f = false) :
    execute_pipeline cmds pipeOk forkOk dIn dOut eOk =
      ⟨(List.range' 0 (cmds.length - 1)).map Event.pipeCreated ++
        ((List.range' 0 f).map Event.forked ++ [Event.perror "Fork failed"]),
        (List.range' 0 f).map
          (fun j => (j, childBody j cmds.length (cmds.getD j "")
            (dIn j) (dOut j) (eOk j)))⟩ := by
  have hP := createPipesAux_all_ok pipeOk (cmds.length - 1) 0
    (fun j _ hj2 => hp j (by omega))
  have hS := spawnAux_first_fail cmds cmds.length forkOk dIn dOut eOk cmds.length 0 f (Nat.zero_le f)
    (by omega) (fun j _ hj2 => hok j hj2) hfail
  simp only [execute_pipeline, hP, hS]
  simp

theorem execute_pipeline_parent_shape {cmds : List String}
    {pipeOk forkOk dIn dOut eOk : Nat → Bool} {e : Event}
    (h : e ∈ (execute_pipeline cmds pipeOk forkOk dIn dOut eOk).parent) :
    (∃ m, e = Event.pipeCreated m) ∨ (∃ m, e = Event.forked m) ∨
      (∃ m, e = Event.closedFd m) ∨ e = Event.perror "Pipe failed" ∨
      e = Event.perror "Fork failed" ∨ e = Event.waited := by
  simp only [execute_pipeline] at h
  split at h
  · split at h
    · simp only [List.append_assoc, List.mem_append] at h
      rcases h with h | h | h | h
      · rcases createPipesAux_events_shape _ _ _ h with ⟨m, hm⟩ | hm
        · exact Or.inl ⟨m, hm⟩
        · exact Or.inr (Or.inr (Or.inr (Or.inl hm)))
      · rcases spawnAux_events_shape _ _ _ h with ⟨m, hm⟩ | hm
        · exact Or.inr (Or.inl ⟨m, hm⟩)
        · exact Or.inr (Or.inr (Or.inr (Or.inr (Or.inl hm))))
      · obtain ⟨m, _, hm⟩ := List.mem_map.mp h
        exact Or.inr (Or.inr (Or.inl ⟨m, hm.symm⟩))
      · exact Or.inr (Or.inr (Or.inr (Or.inr (Or.inr (List.eq_of_mem_replicate h)))))
    · simp only [List.mem_append] at h
      rcases h with h | h
      · rcases createPipesAux_events_shape _ _ _ h with ⟨m, hm⟩ | hm
        · exact Or.inl ⟨m, hm⟩
        · exact Or.inr (Or.inr (Or.inr (Or.inl hm)))
      · rcases spawnAux_events_shape _ _ _ h with ⟨m, hm⟩ | hm
        · exact Or.inr (Or.inl ⟨m, hm⟩)
        · exact Or.inr (Or.inr (Or.inr (Or.inr (Or.inl hm))))
  · rcases createPipesAux_events_shape _ _ _ h with ⟨m, hm⟩ | hm
    · exact Or.inl ⟨m, hm⟩
    · exact Or.inr (Or.inr (Or.inr (Or.inl hm)))

theorem count_closedFd_eq_zero {l : List Event} (h : ∀ m, Event.closedFd m ∉ l) (j : Nat) :
    l.count (Event.closedFd j) = 0 :=
  List.count_eq_zero.mpr (h j)

theorem count_closedFd_replicate_waited (n j : Nat) :
    (List.replicate n Event.waited).count (Event.closedFd j) = 0 := by
  apply count_closedFd_eq_zero
  intro m hm
  exact Event.noConfusion (List.eq_of_mem_replicate hm)

theorem count_closedFd_map_pipeCreated (l : List Nat) (j : Nat) :
    (l.map Event.pipeCreated).count (Event.closedFd j) = 0 := by
  apply count_closedFd_eq_zero
  intro m hm
  obtain ⟨a, _, ha⟩ := List.mem_map.mp hm
  exact Event.noConfusion ha

theorem count_closedFd_map_forked (l : List Nat) (j : Nat) :
    (l.map Event.forked).count (Event.closedFd j) = 0 := by
  apply count_closedFd_eq_zero
  intro m hm
  obtain ⟨a, _, ha⟩ := List.mem_map.mp hm
  exact Event.noConfusion ha

/-- Claim C3: execute_pipeline with N commands creates exactly N-1
channels, all before forking any child, and if any channel creation
fails it reports "Pipe failed" and returns without spawning any
process. -/
theorem pipeline_channel_allocation (cmds : List String)
    (pipeOk forkOk dIn dOut eOk : Nat → Bool) :
    ((∀ j, j < cmds.length - 1 → pipeOk j = true) →
      ∃ rest, (execute_pipeline cmds pipeOk forkOk dIn dOut eOk).parent
          = (List.range' 0 (cmds.length - 1)).map Event.pipeCreated ++ rest ∧
        ∀ m, Event.pipeCreated m ∉ rest) ∧
    ((∃ k, k < cmds.length - 1 ∧ pipeOk k = false) →
      Event.perror "Pipe failed" ∈
          (execute_pipeline cmds pipeOk forkOk dIn dOut eOk).parent ∧
        (∀ i, Event.forked i ∉
          (execute_pipeline cmds pipeOk forkOk dIn dOut eOk).parent) ∧
        (execute_pipeline cmds pipeOk forkOk dIn dOut eOk).children = []) := by
  constructor
  · intro hp
    have hP := createPipesAux_all_ok pipeOk (cmds.length - 1) 0
      (fun j _ hj2 => hp j (by omega))
    simp only [execute_pipeline, hP, if_true]
    by_cases hs2 : (spawnAux cmds cmds.length forkOk dIn dOut eOk 0 cmds.length).2.2
    · simp only [hs2, if_true]
      refine ⟨(spawnAux cmds cmds.length forkOk dIn dOut eOk 0 cmds.length).1 ++
        ((List.range (2*(cmds.length - 1))).map Event.closedFd ++
          List.replicate cmds.length Event.waited), by simp [List.append_assoc], ?_⟩
      intro m hm
      simp only [List.mem_append] at hm
      rcases hm with hm | hm | hm
      · rcases spawnAux_events_shape _ _ _ hm with ⟨a, ha⟩ | ha <;> simp at ha
      · obtain ⟨a, _, ha⟩ := List.mem_map.mp hm
        exact Event.noConfusion ha
      · exact Event.noConfusion (List.eq_of_mem_replicate hm)
    · simp only [Bool.not_eq_true] at hs2
      simp only [hs2, Bool.false_eq_true, if_false]
      refine ⟨_, rfl, ?_⟩
      intro m hm
      rcases spawnAux_events_shape _ _ _ hm with ⟨a, ha⟩ | ha <;> simp at ha
  · intro ⟨k, hk, hfail⟩
    have hex : ∃ j, pipeOk j = false := ⟨k, hfail⟩
    have hk0lt : Nat.find hex < cmds.length - 1 :=
      lt_of_le_of_lt (Nat.find_le hfail) hk
    have hok : ∀ j, j < Nat.find hex → pipeOk j = true := by
      intro j hj
      have hmin := Nat.find_min hex hj
      cases h2 : pipeOk j
      · exact absurd h2 hmin
      · rfl
    have hE := execute_pipeline_pipe_fail cmds pipeOk forkOk dIn dOut eOk (Nat.find hex) hk0lt hok (Nat.find_spec hex)
    rw [hE]
    refine ⟨by simp, ?_, rfl⟩
    intro i hi
    simp only [List.mem_append] at hi
    rcases hi with hi | hi
    · obtain ⟨a, _, ha⟩ := List.mem_map.mp hi
      exact Event.noConfusion ha
    · simp at hi

/-- Witness for claim C3 at concrete inputs: with two stages and all
pipes succeeding the parent trace starts with the single pipeCreated
event; with a failing pipe no child is recorded. -/
theorem pipeline_channel_allocation_witness :
    (∃ rest, (execute_pipeline ["ls", "wc"] (fun _ => true) (fun _ => true)
        (fun _ => true) (fun _ => true) (fun _ => true)).parent
        = (List.range' 0 1).map Event.pipeCreated ++ rest ∧
      ∀ m, Event.pipeCreated m ∉ rest) ∧
    (execute_pipeline ["ls", "wc"] (fun _ => false) (fun _ => true)
      (fun _ => true) (fun _ => true) (fun _ => true)).children = [] :=
  ⟨(pipeline_channel_allocation ["ls", "wc"] (fun _ => true) (fun _ => true)
      (fun _ => true) (fun _ => true) (fun _ => true)).1 (by decide),
   ((pipeline_channel_allocation ["ls", "wc"] (fun _ => false) (fun _ => true)
      (fun _ => true) (fun _ => true) (fun _ => true)).2 ⟨0, by decide, rfl⟩).2.2⟩

/-- Claim C9: when pipe creation fails after k channels were created, or
when a fork fails at some stage of a multi-stage pipeline,
execute_pipeline returns at once: the parent closes none of the channel
descriptors created so far and reaps none of the already-spawned
children. -/
theorem pipeline_error_paths_leak (cmds : List String)
    (pipeOk forkOk dIn dOut eOk : Nat → Bool) :
    (∀ k, 0 < k → k < cmds.length - 1 → (∀ j, j < k → pipeOk j = true) →
      pipeOk k = false →
      (execute_pipeline cmds pipeOk forkOk dIn dOut eOk).parent
          = (List.range' 0 k).map Event.pipeCreated ++ [Event.perror "Pipe failed"] ∧
        (∀ j, Event.closedFd j ∉
          (execute_pipeline cmds pipeOk forkOk dIn dOut eOk).parent) ∧
        Event.waited ∉ (execute_pipeline cmds pipeOk forkOk dIn dOut eOk).parent ∧
        (execute_pipeline cmds pipeOk forkOk dIn dOut eOk).children = []) ∧
    (∀ f, 2 ≤ cmds.length → f < cmds.length →
      (∀ j, j < cmds.length - 1 → pipeOk j = true) →
      (∀ j, j < f → forkOk j = true) → forkOk f = false →
      (execute_pipeline cmds pipeOk forkOk dIn dOut eOk).parent
          = (List.range' 0 (cmds.length - 1)).map Event.pipeCreated ++
            ((List.range' 0 f).map Event.forked ++ [Event.perror "Fork failed"]) ∧
        (∀ j, Event.closedFd j ∉
          (execute_pipeline cmds pipeOk forkOk dIn dOut eOk).parent) ∧
        Event.waited ∉ (execute_pipeline cmds pipeOk forkOk dIn dOut eOk).parent ∧
        (execute_pipeline cmds pipeOk forkOk dIn dOut eOk).children.length = f) := by
  constructor
  · intro k _ hk hok hfail
    have hE := execute_pipeline_pipe_fail cmds pipeOk forkOk dIn dOut eOk k hk hok hfail
    rw [hE]
    refine ⟨rfl, ?_, ?_, rfl⟩
    · intro j hj
      simp only [List.mem_append] at hj
      rcases hj with hj | hj
      · obtain ⟨a, _, ha⟩ := List.mem_map.mp hj
        exact Event.noConfusion ha
      · simp at hj
    · intro hj
      simp only [List.mem_append] at hj
      rcases hj with hj | hj
      · obtain ⟨a, _, ha⟩ := List.mem_map.mp hj
        exact Event.noConfusion ha
      · simp at hj
  · intro f _ hflt hp hok hfail
    have hE := execute_pipeline_fork_fail cmds pipeOk forkOk dIn dOut eOk f hp hflt hok hfail
    rw [hE]
    refine ⟨rfl, ?_, ?_, by simp⟩
    · intro j hj
      simp only [List.mem_append] at hj
      rcases hj with hj | hj | hj
      · obtain ⟨a, _, ha⟩ := List.mem_map.mp hj
        exact Event.noConfusion ha
      · obtain ⟨a, _, ha⟩ := List.mem_map.mp hj
        exact Event.noConfusion ha
      · simp at hj
    · intro hj
      simp only [List.mem_append] at hj
      rcases hj with hj | hj | hj
      · obtain ⟨a, _, ha⟩ := List.mem_map.mp hj
        exact Event.noConfusion ha
      · obtain ⟨a, _, ha⟩ := List.mem_map.mp hj
        exact Event.noConfusion ha
      · simp at hj

/-- Witness for claim C9 at concrete inputs: three stages, pipe failing
at index 1 leaves no children; fork failing at stage 1 leaves the one
already-spawned child unreaped. -/
theorem pipeline_error_paths_leak_witness :
    (execute_pipeline ["a", "b", "c"] (fun j => j == 0) (fun _ => true)
      (fun _ => true) (fun _ => true) (fun _ => true)).children = [] ∧
    (execute_pipeline ["a", "b", "c"] (fun _ => true) (fun j => j == 0)
      (fun _ => true) (fun _ => true) (fun _ => true)).children.length = 1 :=
  ⟨((pipeline_error_paths_leak ["a", "b", "c"] (fun j => j == 0) (fun _ => true)
      (fun _ => true) (fun _ => true) (fun _ => true)).1 1 (by decide) (by decide)
      (by decide) (by decide)).2.2.2,
   ((pipeline_error_paths_leak ["a", "b", "c"] (fun _ => true) (fun j => j == 0)
      (fun _ => true) (fun _ => true) (fun _ => true)).2 1 (by decide) (by decide)
      (by decide) (by decide) (by decide)).2.2.2⟩

theorem childBody_stdinFail {i n : Nat} {cmd : String} {dIn dOut eOk : Bool}
    (h0 : 0 < i) (hdi : dIn = false) :
    childBody i n cmd dIn dOut eOk =
      [Event.dup2 ((i-1)*2) 0, Event.perror "dup2 stdin failed", Event.exitCall 1] := by
  unfold childBody
  rw [if_pos ⟨h0, hdi⟩]

theorem childBody_stdoutFail {i n : Nat} {cmd : String} {dIn dOut eOk : Bool}
    (h1 : ¬(0 < i ∧ dIn = false)) (hn1 : i < n-1) (hdo : dOut = false) :
    childBody i n cmd dIn dOut eOk =
      (if 0 < i then [Event.dup2 ((i-1)*2) 0] else []) ++
        [Event.dup2 (i*2+1) 1, Event.perror "dup2 stdout failed", Event.exitCall 1] := by
  unfold childBody
  rw [if_neg h1, if_pos (show i < n-1 ∧ dOut = false from ⟨hn1, hdo⟩)]

theorem childBody_okBranch {i n : Nat} {cmd : String} {dIn dOut eOk : Bool}
    (h1 : ¬(0 < i ∧ dIn = false)) (h2 : ¬(i < n-1 ∧ dOut = false)) :
    childBody i n cmd dIn dOut eOk =
      (if 0 < i then [Event.dup2 ((i-1)*2) 0] else []) ++
        ((if i < n-1 then [Event.dup2 (i*2+1) 1] else []) ++
          (List.range (2*(n-1))).map Event.closedFd ++
          Event.execvp (splitS cmd ' ') ::
            (if eOk then [] else [Event.perror "Execvp failed", Event.exitCall 1])) := by
  unfold childBody
  rw [if_neg h1, if_neg h2]

theorem childBody_ok (i n : Nat) (cmd : String) (eOk : Bool) :
    childBody i n cmd true true eOk =
      (if 0 < i then [Event.dup2 ((i-1)*2) 0] else []) ++
        ((if i < n-1 then [Event.dup2 (i*2+1) 1] else []) ++
          (List.range (2*(n-1))).map Event.closedFd ++
          Event.execvp (splitS cmd ' ') ::
            (if eOk then [] else [Event.perror "Execvp failed", Event.exitCall 1])) :=
  childBody_okBranch (by simp) (by simp)

theorem count_closedFd_dup2_opt (b : Prop) [Decidable b] (a t j : Nat) :
    (if b then [Event.dup2 a t] else []).count (Event.closedFd j) = 0 := by
  apply count_closedFd_eq_zero
  intro m hm
  split at hm <;> simp at hm

theorem count_closedFd_execTail (argv : List String) (eOk : Bool) (j : Nat) :
    (Event.execvp argv ::
      (if eOk then [] else [Event.perror "Execvp failed", Event.exitCall 1])).count
        (Event.closedFd j) = 0 := by
  apply count_closedFd_eq_zero
  intro m hm
  rcases List.mem_cons.mp hm with h | h
  · exact Event.noConfusion h
  · split at h <;> simp at h

theorem childBody_count_closedFd (i n : Nat) (cmd : String) (eOk : Bool) (j : Nat) :
    (childBody i n cmd true true eOk).count (Event.closedFd j) =
      if j < 2*(n-1) then 1 else 0 := by
  rw [childBody_ok]
  simp only [List.count_append]
  rw [count_closedFd_dup2_opt, count_closedFd_dup2_opt, count_closedFd_map_range,
    count_closedFd_execTail]
  omega

theorem childBody_ok_decomp (i n : Nat) (cmd : String) (eOk : Bool) :
    ∃ pre post, childBody i n cmd true true eOk
        = pre ++ Event.execvp (splitS cmd ' ') :: post ∧
      pre = (if 0 < i then [Event.dup2 ((i-1)*2) 0] else []) ++
        (if i < n-1 then [Event.dup2 (i*2+1) 1] else []) ++
        (List.range (2*(n-1))).map Event.closedFd ∧
      post = (if eOk then [] else [Event.perror "Execvp failed", Event.exitCall 1]) := by
  refine ⟨_, _, ?_, rfl, rfl⟩
  rw [childBody_ok]
  simp [List.append_assoc]

/-- Claim C1: on the success path of an N-stage pipeline, N at least 2,
every one of the 2*(N-1) channel endpoints is closed exactly once by the
parent (after spawning, before the waits) and exactly once by each child
(before its exec), and no other endpoint index is ever closed. -/
theorem pipeline_fd_discipline (cmds : List String)
    (pipeOk forkOk dIn dOut eOk : Nat → Bool)
    (_hn : 2 ≤ cmds.length)
    (hp : ∀ j, j < cmds.length - 1 → pipeOk j = true)
    (hf : ∀ j, j < cmds.length → forkOk j = true)
    (hdi : ∀ j, dIn j = true) (hdo : ∀ j, dOut j = true) :
    (∀ j, j < 2*(cmds.length - 1) →
      (execute_pipeline cmds pipeOk forkOk dIn dOut eOk).parent.count
        (Event.closedFd j) = 1) ∧
    (∀ j, 2*(cmds.length - 1) ≤ j →
      (execute_pipeline cmds pipeOk forkOk dIn dOut eOk).parent.count
        (Event.closedFd j) = 0) ∧
    (∃ pre, (execute_pipeline cmds pipeOk forkOk dIn dOut eOk).parent
        = pre ++ (List.range (2*(cmds.length - 1))).map Event.closedFd ++
          List.replicate cmds.length Event.waited ∧
      (∀ j, Event.closedFd j ∉ pre) ∧ Event.waited ∉ pre) ∧
    (execute_pipeline cmds pipeOk forkOk dIn dOut eOk).children.length
      = cmds.length ∧
    (∀ i es, (i, es) ∈ (execute_pipeline cmds pipeOk forkOk dIn dOut eOk).children →
      (∀ j, j < 2*(cmds.length - 1) → es.count (Event.closedFd j) = 1) ∧
      (∀ j, 2*(cmds.length - 1) ≤ j → es.count (Event.closedFd j) = 0) ∧
      ∃ pre post, es = pre ++ Event.execvp (splitS (cmds.getD i "") ' ') :: post ∧
        (∀ j, j < 2*(cmds.length - 1) → pre.count (Event.closedFd j) = 1) ∧
        (∀ j, Event.closedFd j ∉ post)) := by
  have hE := execute_pipeline_all_ok cmds pipeOk forkOk dIn dOut eOk hp hf
  rw [hE]
  refine ⟨?_, ?_, ?_, by simp, ?_⟩
  · intro j hj
    simp only [List.count_append]
    rw [count_closedFd_map_pipeCreated, count_closedFd_map_forked,
      count_closedFd_map_range, count_closedFd_replicate_waited]
    simp [hj]
  · intro j hj
    simp only [List.count_append]
    rw [count_closedFd_map_pipeCreated, count_closedFd_map_forked,
      count_closedFd_map_range, count_closedFd_replicate_waited]
    have hnot : ¬ j < 2*(cmds.length - 1) := by omega
    simp [hnot]
  · refine ⟨(List.range' 0 (cmds.length - 1)).map Event.pipeCreated ++
      (List.range' 0 cmds.length).map Event.forked, by simp [List.append_assoc],
      ?_, ?_⟩
    · intro j hj
      simp only [List.mem_append] at hj
      rcases hj with hj | hj <;>
        · obtain ⟨a, _, ha⟩ := List.mem_map.mp hj
          exact Event.noConfusion ha
    · intro hj
      simp only [List.mem_append] at hj
      rcases hj with hj | hj <;>
        · obtain ⟨a, _, ha⟩ := List.mem_map.mp hj
          exact Event.noConfusion ha
  · intro i es hmem
    simp only [List.mem_map] at hmem
    obtain ⟨a, hamem, ha⟩ := hmem
    have hai : a = i := congrArg Prod.fst ha
    have haes : childBody a cmds.length (cmds.getD a "") (dIn a) (dOut a) (eOk a)
        = es := congrArg Prod.snd ha
    subst hai
    rw [hdi a, hdo a] at haes
    subst haes
    refine ⟨?_, ?_, ?_⟩
    · intro j hj
      rw [childBody_count_closedFd]
      simp [hj]
    · intro j hj
      rw [childBody_count_closedFd]
      have hnot : ¬ j < 2*(cmds.length - 1) := by omega
      simp [hnot]
    · obtain ⟨pre, post, hsplit, hpre, hpost⟩ :=
        childBody_ok_decomp a cmds.length (cmds.getD a "") (eOk a)
      refine ⟨pre, post, hsplit, ?_, ?_⟩
      · intro j hj
        rw [hpre]
        simp only [List.count_append]
        rw [count_closedFd_dup2_opt, count_closedFd_dup2_opt, count_closedFd_map_range]
        simp [hj]
      · intro j hj
        rw [hpost] at hj
        split at hj <;> simp at hj

/-- Witness for claim C1 at the concrete two-stage pipeline with all
system calls succeeding. -/
theorem pipeline_fd_discipline_witness :
    (execute_pipeline ["ls", "wc"] (fun _ => true) (fun _ => true) (fun _ => true)
      (fun _ => true) (fun _ => true)).parent.count (Event.closedFd 0) = 1 :=
  (pipeline_fd_discipline ["ls", "wc"] (fun _ => true) (fun _ => true)
    (fun _ => true) (fun _ => true) (fun _ => true) (by decide) (by decide)
    (by decide) (fun _ => rfl) (fun _ => rfl)).1 0 (by decide)

theorem dup2_mem_childBody_iff (i n : Nat) (cmd : String) (dIn dOut eOk : Bool)
    (j t : Nat) :
    Event.dup2 j t ∈ childBody i n cmd dIn dOut eOk ↔
      (0 < i ∧ j = (i-1)*2 ∧ t = 0) ∨
      (¬(0 < i ∧ dIn = false) ∧ i < n-1 ∧ j = i*2+1 ∧ t = 1) := by
  by_cases h1 : 0 < i ∧ dIn = false
  · rw [childBody_stdinFail h1.1 h1.2]
    simp [h1, h1.1]
  · by_cases h0 : 0 < i
    · have hdi : dIn = true := by
        cases hd : dIn
        · exact absurd ⟨h0, hd⟩ h1
        · rfl
      by_cases h2 : i < n-1 ∧ dOut = false
      · rw [childBody_stdoutFail h1 h2.1 h2.2]
        simp [h0, h1, h2.1, hdi]
      · rw [childBody_okBranch h1 h2]
        by_cases hn1 : i < n-1 <;> cases eOk <;> simp [h0, hn1, h1, hdi]
    · by_cases h2 : i < n-1 ∧ dOut = false
      · rw [childBody_stdoutFail h1 h2.1 h2.2]
        simp [h0, h1, h2.1]
      · rw [childBody_okBranch h1 h2]
        by_cases hn1 : i < n-1 <;> cases eOk <;> simp [h0, hn1, h1]

/-- Claim C2: the child of stage i duplicates the read end of channel
i-1 onto stdin exactly when i is positive, duplicates the write end of
channel i onto stdout exactly when i is below N-1 (provided the stdin
duplication did not already kill it), performs no other duplication,
reports and exits with status 1 when either duplication fails, and
performs every duplication before the exec of the stage's command. -/
theorem child_stage_redirection (i n : Nat) (cmd : String) (dIn dOut eOk : Bool) :
    (Event.dup2 ((i-1)*2) 0 ∈ childBody i n cmd dIn dOut eOk ↔ 0 < i) ∧
    ((0 < i → dIn = true) →
      (Event.dup2 (i*2+1) 1 ∈ childBody i n cmd dIn dOut eOk ↔ i < n-1)) ∧
    (∀ j t, Event.dup2 j t ∈ childBody i n cmd dIn dOut eOk →
      (t = 0 ∧ 0 < i ∧ j = (i-1)*2) ∨ (t = 1 ∧ i < n-1 ∧ j = i*2+1)) ∧
    (0 < i → dIn = false →
      Event.perror "dup2 stdin failed" ∈ childBody i n cmd dIn dOut eOk ∧
      Event.exitCall 1 ∈ childBody i n cmd dIn dOut eOk ∧
      ∀ argv, Event.execvp argv ∉ childBody i n cmd dIn dOut eOk) ∧
    ((0 < i → dIn = true) → i < n-1 → dOut = false →
      Event.perror "dup2 stdout failed" ∈ childBody i n cmd dIn dOut eOk ∧
      Event.exitCall 1 ∈ childBody i n cmd dIn dOut eOk ∧
      ∀ argv, Event.execvp argv ∉ childBody i n cmd dIn dOut eOk) ∧
    ((0 < i → dIn = true) → (i < n-1 → dOut = true) →
      ∃ pre post, childBody i n cmd dIn dOut eOk
          = pre ++ Event.execvp (splitS cmd ' ') :: post ∧
        (∀ j t, Event.dup2 j t ∉ post) ∧ (∀ argv, Event.execvp argv ∉ pre)) := by
  refine ⟨?_, ?_, ?_, ?_, ?_, ?_⟩
  · rw [dup2_mem_childBody_iff]
    constructor
    · intro h
      rcases h with ⟨h, _⟩ | ⟨_, _, _, ht⟩
      · exact h
      · omega
    · intro h
      exact Or.inl ⟨h, rfl, rfl⟩
  · intro hdi
    rw [dup2_mem_childBody_iff]
    constructor
    · intro h
      rcases h with ⟨_, _, ht⟩ | ⟨_, h, _, _⟩
      · omega
      · exact h
    · intro h
      refine Or.inr ⟨?_, h, rfl, rfl⟩
      intro ⟨hi, hd⟩
      rw [hdi hi] at hd
      exact Bool.noConfusion hd
  · intro j t h
    rw [dup2_mem_childBody_iff] at h
    rcases h with ⟨h0, hj, ht⟩ | ⟨_, hn1, hj, ht⟩
    · exact Or.inl ⟨ht, h0, hj⟩
    · exact Or.inr ⟨ht, hn1, hj⟩
  · intro h0 hdi
    rw [childBody_stdinFail h0 hdi]
    refine ⟨by simp, by simp, ?_⟩
    intro argv h
    simp at h
  · intro hdi hn1 hdo
    have h1 : ¬(0 < i ∧ dIn = false) := by
      intro ⟨hi, hd⟩
      rw [hdi hi] at hd
      exact Bool.noConfusion hd
    rw [childBody_stdoutFail h1 hn1 hdo]
    refine ⟨by simp, by simp, ?_⟩
    intro argv h
    simp only [List.mem_append] at h
    rcases h with h | h
    · split at h <;> simp at h
    · simp at h
  · intro hdi hdo
    have h1 : ¬(0 < i ∧ dIn = false) := by
      intro ⟨hi, hd⟩
      rw [hdi hi] at hd
      exact Bool.noConfusion hd
    have h2 : ¬(i < n-1 ∧ dOut = false) := by
      intro ⟨hi, hd⟩
      rw [hdo hi] at hd
      exact Bool.noConfusion hd
    refine ⟨(if 0 < i then [Event.dup2 ((i-1)*2) 0] else []) ++
      ((if i < n-1 then [Event.dup2 (i*2+1) 1] else []) ++
        (List.range (2*(n-1))).map Event.closedFd),
      (if eOk then [] else [Event.perror "Execvp failed", Event.exitCall 1]),
      ?_, ?_, ?_⟩
    · rw [childBody_okBranch h1 h2]
      simp [List.append_assoc]
    · intro j t hj
      split at hj <;> simp at hj
    · intro argv h
      simp only [List.mem_append] at h
      rcases h with h | h | h
      · split at h <;> simp at h
      · split at h <;> simp at h
      · obtain ⟨a, _, ha⟩ := List.mem_map.mp h
        exact Event.noConfusion ha

/-- Witness for claim C2 at the concrete stage 1 of a 2-stage
pipeline. -/
theorem child_stage_redirection_witness :
    Event.dup2 0 0 ∈ childBody 1 2 "wc" true true true :=
  (child_stage_redirection 1 2 "wc" true true true).1.mpr (by decide)

/-- Claim C10: the quit token is special-cased only on the
single-command path: the parent of execute_pipeline never calls exit
under any oracle outcome, a spawned stage whose first token is "quit" is
exec'd like any other command, and a multi-stage input line always
continues the driver loop. -/
theorem pipeline_no_quit_shortcut (cmds : List String)
    (pipeOk forkOk dIn dOut eOk : Nat → Bool) :
    (∀ c, Event.exitCall c ∉
      (execute_pipeline cmds pipeOk forkOk dIn dOut eOk).parent) ∧
    (∀ i, i < cmds.length →
      (∀ j, j < cmds.length - 1 → pipeOk j = true) →
      (∀ j, j ≤ i → forkOk j = true) →
      dIn i = true → dOut i = true →
      (splitS (cmds.getD i "") ' ').head? = some "quit" →
      ∃ es, (i, es) ∈ (execute_pipeline cmds pipeOk forkOk dIn dOut eOk).children ∧
        Event.execvp (splitS (cmds.getD i "") ' ') ∈ es) ∧
    (∀ (input : String) (forkOk1 execOk1 : Bool),
      2 ≤ (splitS input '|').length →
      (processLine input forkOk1 execOk1 pipeOk forkOk dIn dOut eOk).1
        = LineOutcome.next) := by
  refine ⟨?_, ?_, ?_⟩
  · intro c hc
    rcases execute_pipeline_parent_shape hc with ⟨m, hm⟩ | ⟨m, hm⟩ | ⟨m, hm⟩ | hm | hm | hm
    · exact Event.noConfusion hm
    · exact Event.noConfusion hm
    · exact Event.noConfusion hm
    · exact Event.noConfusion hm
    · exact Event.noConfusion hm
    · exact Event.noConfusion hm
  · intro i hi hp hofk hdi hdo _
    have hP := createPipesAux_all_ok pipeOk (cmds.length - 1) 0
      (fun j _ hj2 => hp j (by omega))
    have hmem := spawnAux_child_mem cmds cmds.length forkOk dIn dOut eOk
      cmds.length 0 i (Nat.zero_le i) (by omega) (fun j _ hj2 => hofk j hj2)
    refine ⟨childBody i cmds.length (cmds.getD i "") (dIn i) (dOut i) (eOk i),
      ?_, ?_⟩
    · simp only [execute_pipeline, hP, if_true]
      by_cases hs2 : (spawnAux cmds cmds.length forkOk dIn dOut eOk 0 cmds.length).2.2
      · simp only [hs2, if_true]
        exact hmem
      · simp only [Bool.not_eq_true] at hs2
        simp only [hs2, Bool.false_eq_true, if_false]
        exact hmem
    · rw [hdi, hdo, childBody_ok]
      simp
  · intro input forkOk1 execOk1 hlen
    have hne : ¬ input = "" := by
      intro h
      subst h
      revert hlen
      decide
    have hnq : ¬ input = "quit" := by
      intro h
      subst h
      revert hlen
      decide
    have h0 : ¬ (splitS input '|').length = 0 := by omega
    have h1 : ¬ (splitS input '|').length = 1 := by omega
    simp [processLine, hne, hnq, h0, h1]

/-- Witness for claim C10 with a concrete two-stage pipeline whose first
stage is named quit. -/
theorem pipeline_no_quit_shortcut_witness :
    ∃ es, (0, es) ∈ (execute_pipeline ["quit", "wc"] (fun _ => true) (fun _ => true)
        (fun _ => true) (fun _ => true) (fun _ => true)).children ∧
      Event.execvp (splitS (["quit", "wc"].getD 0 "") ' ') ∈ es :=
  (pipeline_no_quit_shortcut ["quit", "wc"] (fun _ => true) (fun _ => true)
    (fun _ => true) (fun _ => true) (fun _ => true)).2.1 0 (by decide) (by decide)
    (by decide) rfl rfl (by decide)

theorem execute_command_quitExit_iff (cmd_tokens : List String) (forkOk execOk : Bool) :
    (execute_command cmd_tokens forkOk execOk).quitExit = true ↔
      cmd_tokens.head? = some "quit" := by
  cases cmd_tokens with
  | nil => simp [execute_command]
  | cons t ts =>
    by_cases ht : t = "quit"
    · subst ht
      simp [execute_command]
    · cases forkOk <;> simp [execute_command, ht]

theorem execute_command_quit_run {cmd_tokens : List String} {forkOk execOk : Bool}
    (h : (execute_command cmd_tokens forkOk execOk).quitExit = true) :
    (execute_command cmd_tokens forkOk execOk).parent = [Event.exitCall 0] ∧
      (execute_command cmd_tokens forkOk execOk).child = none := by
  cases cmd_tokens with
  | nil => simp [execute_command] at h
  | cons t ts =>
    by_cases ht : t = "quit"
    · subst ht
      simp [execute_command]
    · cases forkOk <;> simp [execute_command, ht] at h

theorem processLine_spec (input : String) (forkOk execOk : Bool)
    (po fo di do2 eo : Nat → Bool) :
    ((processLine input forkOk execOk po fo di do2 eo).1 = LineOutcome.terminate 0 ↔
      parsedSingleQuit input) ∧
    (∀ c, (processLine input forkOk execOk po fo di do2 eo).1 = LineOutcome.terminate c →
      c = 0 ∧ ∀ i, Event.forked i ∉ (processLine input forkOk execOk po fo di do2 eo).2) := by
  by_cases he : input = ""
  · have hp : processLine input forkOk execOk po fo di do2 eo
        = (LineOutcome.next, []) := by
      simp [processLine, he]
    rw [hp]
    subst he
    exact ⟨iff_of_false (by simp) (by decide), fun c h => absurd h (by simp)⟩
  · by_cases hq : input = "quit"
    · have hp : processLine input forkOk execOk po fo di do2 eo
          = (LineOutcome.terminate 0, []) := by
        simp [processLine, he, hq]
      rw [hp]
      subst hq
      refine ⟨iff_of_true rfl (by decide), ?_⟩
      intro c h
      injection h with h0c
      exact ⟨h0c.symm, fun i hi => absurd hi (by simp)⟩
    · by_cases h0 : (splitS input '|').length = 0
      · have hp : processLine input forkOk execOk po fo di do2 eo
            = (LineOutcome.next, []) := by
          simp [processLine, he, hq, h0]
        rw [hp]
        refine ⟨iff_of_false (by simp) ?_, fun c h => absurd h (by simp)⟩
        intro ⟨hlen, _⟩
        omega
      · by_cases h1 : (splitS input '|').length = 1
        · have hp : processLine input forkOk execOk po fo di do2 eo
              = (if (execute_command (splitS ((splitS input '|').headD "") ' ')
                    forkOk execOk).quitExit
                  then LineOutcome.terminate 0 else LineOutcome.next,
                 (execute_command (splitS ((splitS input '|').headD "") ' ')
                    forkOk execOk).parent) := by
            simp [processLine, he, hq, h0, h1]
          rw [hp]
          constructor
          · constructor
            · intro h
              by_cases hqe : (execute_command (splitS ((splitS input '|').headD "") ' ')
                  forkOk execOk).quitExit = true
              · exact ⟨h1, (execute_command_quitExit_iff _ _ _).mp hqe⟩
              · rw [if_neg hqe] at h
                exact absurd h (by simp)
            · intro ⟨_, hhq⟩
              have hqe := (execute_command_quitExit_iff
                (splitS ((splitS input '|').headD "") ' ') forkOk execOk).mpr hhq
              rw [if_pos hqe]
          · intro c h
            by_cases hqe : (execute_command (splitS ((splitS input '|').headD "") ' ')
                forkOk execOk).quitExit = true
            · rw [if_pos hqe] at h
              injection h with h0c
              refine ⟨h0c.symm, ?_⟩
              intro i hi
              rw [(execute_command_quit_run hqe).1] at hi
              simp at hi
            · rw [if_neg hqe] at h
              exact absurd h (by simp)
        · have hp1 : (processLine input forkOk execOk po fo di do2 eo).1
              = LineOutcome.next := by
            simp [processLine, he, hq, h0, h1]
          refine ⟨?_, fun c h => absurd (hp1 ▸ h) (by simp)⟩
          rw [hp1]
          exact iff_of_false (by simp) (fun ⟨hlen, _⟩ => h1 hlen)

/-- Claim C5: the interpreter always ends with exit status 0; a line
terminates the process exactly when it parses to a single-stage command
whose first token is "quit", and then no child was spawned on that line;
a failed fork or exec never terminates the interpreter (the
characterization holds for every oracle outcome). -/
theorem quit_and_eof_termination :
    (∀ envs : List LineEnv, mainRun envs = 0) ∧
    (∀ (input : String) (forkOk execOk : Bool) (po fo di do2 eo : Nat → Bool),
      ((processLine input forkOk execOk po fo di do2 eo).1 = LineOutcome.terminate 0 ↔
        parsedSingleQuit input) ∧
      (∀ c, (processLine input forkOk execOk po fo di do2 eo).1
          = LineOutcome.terminate c →
        c = 0 ∧ ∀ i, Event.forked i ∉
          (processLine input forkOk execOk po fo di do2 eo).2)) := by
  constructor
  · intro envs
    induction envs with
    | nil => rfl
    | cons e rest ih =>
      simp only [mainRun]
      cases hr : (runLine e).1 with
      | next => exact ih
      | terminate c =>
        have hc := ((processLine_spec e.input e.forkOk e.execOk
          e.po e.fo e.di e.do2 e.eo).2 c hr).1
        rw [hc]
  · exact fun input forkOk execOk po fo di do2 eo =>
      processLine_spec input forkOk execOk po fo di do2 eo

/-- Witness for claim C5 at the concrete input line quit. -/
theorem quit_and_eof_termination_witness :
    (processLine "quit" true true (fun _ => true) (fun _ => true) (fun _ => true)
      (fun _ => true) (fun _ => true)).1 = LineOutcome.terminate 0 :=
  ((quit_and_eof_termination.2 "quit" true true (fun _ => true) (fun _ => true)
    (fun _ => true) (fun _ => true) (fun _ => true)).1).mpr (by decide)

/-- Claim C8: the tokenizer is idempotent under re-serialization: joining
the tokens of splitS s d with the delimiter as separator and tokenizing
the result again yields the same token sequence. -/
theorem tokenizer_idempotent (s : String) (d : Char) :
    splitS (joinTokensS d (splitS s d)) d = splitS s d := by
  unfold splitS joinTokensS
  rw [map_toList_map_mk]
  rw [show (String.mk (joinTokens d (split s.toList d))).toList
        = joinTokens d (split s.toList d) from rfl]
  rw [split_join_split]

/-- Claim C7 counterexample: at the single command "quit" the two
executors differ: execute_command terminates the interpreter with
status 0 and spawns nothing, while a length-1 pipeline through
execute_pipeline spawns one child that execs "quit" and does not
terminate the interpreter. -/
theorem pipeline1_quit_differs :
    (commandBehavior (splitS "quit" ' ') true true).interpExit = true ∧
    (pipeline1Behavior "quit" true true).interpExit = false ∧
    (commandBehavior (splitS "quit" ' ') true true).childTrace = none ∧
    (pipeline1Behavior "quit" true true).childTrace
      = some [Event.execvp ["quit"]] := by
  decide

/-- Claim C7 amended: for a stage whose token list is non-empty and
whose first token is not "quit", executing the length-1 pipeline through
execute_pipeline is behaviorally identical to executing the stage's
tokens through execute_command. -/
theorem pipeline1_refines_command (c : String) (forkOk execOk : Bool)
    (hne : splitS c ' ' ≠ []) (hq : (splitS c ' ').head? ≠ some "quit") :
    commandBehavior (splitS c ' ') forkOk execOk = pipeline1Behavior c forkOk execOk := by
  cases htok : splitS c ' ' with
  | nil => exact absurd htok hne
  | cons t ts =>
    have ht : ¬ t = "quit" := by
      intro h
      apply hq
      rw [htok, h]
      rfl
    cases forkOk <;> cases execOk <;>
      simp [commandBehavior, pipeline1Behavior, execute_command, execute_command_child,
        execute_pipeline, createPipesAux, spawnAux, childBody, countWaits, isWaitEvent,
        ht, htok, List.contains]

/-- Witness for the amended claim C7 at the concrete command "ls". -/
theorem pipeline1_refines_command_witness :
    commandBehavior (splitS "ls" ' ') true true = pipeline1Behavior "ls" true true :=
  pipeline1_refines_command "ls" true true (by decide) (by decide)

/-- Claim C4: the source has no TooManyArguments check: on a command of
64 tokens get_args writes the null sentinel at index MAX_ARGS, one slot
past the end of the 64-entry argument array, and execute_command forks
and execs the command anyway, reporting nothing. -/
theorem argv_overflow_at_64_tokens :
    (List.replicate 64 "x").length = MAX_ARGS ∧
    (get_args_writes (List.replicate 64 "x")).getLast? = some MAX_ARGS ∧
    get_args (List.replicate 64 "x") = List.replicate 64 (some "x") ++ [none] ∧
    (execute_command (List.replicate 64 "x") true true).parent
      = [Event.forked 0, Event.waitedPid] ∧
    (execute_command (List.replicate 64 "x") true true).child
      = some (execute_command_child (List.replicate 64 "x") true) := by
  decide

end MyShell
